import Mathlib

/-!
Verification development for the `crew_vault_ops` repository.

The embedding models the vault index lifecycle of
`src/vault_ops/vault_ops_tool.py`, the embedding/index glue of
`src/vault_ops/embedder.py`, and the maintenance passes of
`src/vault_ops/maintenance.py`.

Modelling conventions:
* An absolute filesystem path is its list of components from the
  filesystem root (`FsPath`).
* The observable state `St` holds the plain files (notes and
  attachments) as an association list in enumeration order (the order
  `Path.rglob` yields files, which the source leaves unspecified), the
  set of existing directories, the two persisted index artifacts
  (`<vault>/.index/faiss_index.bin` and `<vault>/.index/chunks.json`,
  modelled structurally as `indexFile`/`metaFile`, `none` = absent),
  and the stray `./vector_store/faiss_index.bin` file that
  `embedder.load_faiss` reads from the process working directory
  (`ambient`, `none` = absent).
* A vector is modelled as the text it embeds: the Embedding Provider
  contract is one fixed-dimension vector per input text,
  order-preserving, so for the counting and alignment claims the text
  itself is a faithful stand-in for its vector.
* Python exceptions are modelled by returning `Except Err` together
  with the state reached at the raise point (side effects performed
  before the raise persist, as on a real filesystem).
-/

namespace VaultOps

/-- An absolute filesystem path, as its list of components. -/
abbrev FsPath := List String

/-- One component step of `pathlib.Path.resolve`: `.` and empty components
are dropped, `..` removes the last accumulated component (staying at the
filesystem root when there is none), other components are appended. -/
def resolveComps : List String → FsPath → FsPath
  | [], acc => acc
  | c :: rest, acc =>
    if c = "." ∨ c = "" then resolveComps rest acc
    else if c = ".." then resolveComps rest acc.dropLast
    else resolveComps rest (acc ++ [c])

/-- `Path.resolve()` on an absolute path (no symbolic links in the model). -/
def resolvePath (p : List String) : FsPath := resolveComps p []

/-! ### Kernel-computable list and string utilities

The embedding implements its own membership, list-prefix, suffix and
split primitives so that every definition evaluates by plain structural
reduction on concrete inputs (several core `String` routines do not). -/

/-- Boolean list membership via decidable equality. -/
def memB {α : Type} [DecidableEq α] (x : α) (l : List α) : Bool :=
  l.any (fun y => decide (y = x))

/-- Is the first list an initial segment of the second? -/
def isPrefixB {α : Type} [DecidableEq α] : List α → List α → Bool
  | [], _ => true
  | _ :: _, [] => false
  | a :: as, b :: bs => decide (a = b) && isPrefixB as bs

/-- `s.endswith(suf)` on strings. -/
def endsWithB (s suf : String) : Bool :=
  isPrefixB suf.data.reverse s.data.reverse

/-- Index of the first occurrence of `needle` as a contiguous sublist,
if any. -/
def findSub (needle : List Char) : List Char → Option Nat
  | [] => if isPrefixB needle ([] : List Char) then some 0 else none
  | c :: rest =>
    if isPrefixB needle (c :: rest) then some 0
    else (findSub needle rest).map (· + 1)

/-- Python `str.split(sep)` for a nonempty separator: split at every
non-overlapping leftmost occurrence, keeping empty segments.  The fuel
is one more than the input length; every step consumes at least one
character. -/
def splitSub (needle : List Char) : Nat → List Char → List (List Char)
  | 0, cs => [cs]
  | fuel + 1, cs =>
    match findSub needle cs with
    | none => [cs]
    | some i => cs.take i :: splitSub needle fuel (cs.drop (i + needle.length))


/-- A metadata record of `chunks.json`: `{"file": str(path), "para": text}`
(`vault_ops_tool.py` lines 131 and 154). -/
structure MetaRec where
  file : FsPath
  para : String
  deriving DecidableEq, Repr

/-- The observable state of the system (see the module docstring). -/
structure St where
  files : List (FsPath × String)
  dirs : List FsPath
  indexFile : Option (List String)
  metaFile : Option (List MetaRec)
  ambient : Option (List String)
  deriving DecidableEq, Repr

/-- Look a file up in the association list. -/
def lookupFile : List (FsPath × String) → FsPath → Option String
  | [], _ => none
  | (q, c) :: rest, p => if q = p then some c else lookupFile rest p

/-- `open(path, "w")`: overwrite the file in place, or create it (a new
file is appended at the end of the enumeration order). -/
def setFileList : List (FsPath × String) → FsPath → String → List (FsPath × String)
  | [], p, d => [(p, d)]
  | (q, c) :: rest, p, d =>
    if q = p then (p, d) :: rest else (q, c) :: setFileList rest p d

/-- `path.unlink()` on a plain file. -/
def removeFileList : List (FsPath × String) → FsPath → List (FsPath × String)
  | [], _ => []
  | (q, c) :: rest, p => if q = p then rest else (q, c) :: removeFileList rest p

/-- `path.exists()`: true for a plain file or a directory. -/
def pathExists (st : St) (p : FsPath) : Bool :=
  (lookupFile st.files p).isSome || memB p st.dirs

/-- Last path component (the file name), `""` for the empty path. -/
def lastComp (p : FsPath) : String := p.getLastD ""

/-- Is `p` a markdown file below `vault`, i.e. one the source's
`VAULT_PATH.rglob("*.md")` enumerates? -/
def isMdUnder (vault : FsPath) (p : FsPath) : Bool :=
  isPrefixB vault p && endsWithB (lastComp p) ".md"

/-- The vault's markdown files, in enumeration order. -/
def mdFilesOf (vault : FsPath) (st : St) : List (FsPath × String) :=
  st.files.filter (fun pc => isMdUnder vault pc.1)

/-- The error taxonomy.  All constructors except `emptyIndex` correspond
to exceptions the source can actually raise.  `emptyIndex` is modelled
from the spec: the spec's §7 error taxonomy names an `EmptyIndex` error
for queries against a vault with zero chunks; the source never raises
it, and the constructor exists so that claims mentioning it can be
stated. -/
inductive Err where
  /-- `ValueError("Path escapes vault")`, `vault_ops_tool.py` line 41. -/
  | pathEscape
  /-- `faiss.IndexFlatIP(d)` called with a `pathlib.Path` instead of an
  integer dimension (`embedder.py` line 16 reached via
  `load_faiss(self.INDEX_FILE)` at `vault_ops_tool.py` lines 147/181). -/
  | typeError
  /-- `vecs.shape[1]` on the empty embedding batch of a vault with zero
  chunks (`vault_ops_tool.py` line 134): the encoded empty batch is a
  one-dimensional empty array. -/
  | shapeError
  /-- Python `IndexError`: list index out of range. -/
  | indexError
  /-- `re.error` raised when compiling a syntactically invalid pattern. -/
  | regexError
  /-- `ValueError("Need dimension to create new index.")`, `embedder.py` line 15. -/
  | dimNeeded
  /-- `FileNotFoundError` (reading a missing file, or writing into a
  missing directory). -/
  | fileNotFound
  /-- `IsADirectoryError` from `path.unlink()` on a directory. -/
  | isADirectory
  /-- Spec-taxonomy error, never produced by the code (see above). -/
  | emptyIndex
  deriving DecidableEq, Repr

/-- The argument the callers of `load_faiss` pass for the parameter `d`:
`_bulk_index_vault` passes the integer `vecs.shape[1]`, while
`_index_file` and `_ask` pass the `Path` object `self.INDEX_FILE`. -/
inductive FaissArg where
  | dim (n : Nat)
  | idxPath (p : FsPath)
  deriving DecidableEq, Repr

/-- Equality of `Except` results is decidable (an instance core does
not provide). -/
instance : DecidableEq (Except Err String) := fun a b =>
  match a, b with
  | .error e1, .error e2 =>
    if h : e1 = e2 then .isTrue (by rw [h])
    else .isFalse (fun hc => h (Except.error.inj hc))
  | .error _, .ok _ => .isFalse (fun hc => Except.noConfusion hc)
  | .ok _, .error _ => .isFalse (fun hc => Except.noConfusion hc)
  | .ok s1, .ok s2 =>
    if h : s1 = s2 then .isTrue (by rw [h])
    else .isFalse (fun hc => h (Except.ok.inj hc))

/-- `embedder.embed_texts`: the external Embedding Provider, one
unit-normalized fixed-dimension vector per input text, order-preserving
(spec §6).  A vector is modelled as the text it embeds. -/
def embed_texts (texts : List String) : List String := texts

/-- `embedder.load_faiss(d)`: if the hardcoded working-directory file
`./vector_store/faiss_index.bin` exists it is read and returned — the
`d` argument is ignored, and the vault's own index location is never
consulted.  Otherwise, `d = None` raises `ValueError`, an integer `d`
yields a fresh empty `IndexFlatIP(d)`, and a `Path` passed as `d`
raises `TypeError` inside `faiss.IndexFlatIP`. -/
def load_faiss (ambient : Option (List String)) (d : Option FaissArg) :
    Except Err (List String) :=
  match ambient with
  | some vecs => .ok vecs
  | none =>
    match d with
    | none => .error .dimNeeded
    | some (.dim _) => .ok []
    | some (.idxPath _) => .error .typeError

/-- The chunker of `_bulk_index_vault` (lines 129-131): split the note
text on `"\n\n"` and keep the segments that are nonempty after
stripping whitespace. -/
def paraChunks (txt : String) : List String :=
  ((splitSub ['\n', '\n'] (txt.data.length + 1) txt.data).filter
    (fun para => para.any (fun c => !c.isWhitespace))).map String.mk

/-- The metadata records `_bulk_index_vault` builds: for every markdown
file in enumeration order, one record per kept chunk, in order. -/
def bulkRecords (vault : FsPath) (files : List (FsPath × String)) : List MetaRec :=
  ((files.filter (fun pc => isMdUnder vault pc.1)).map
    (fun pc => (paraChunks pc.2).map (fun para => MetaRec.mk pc.1 para))).flatten

/-- The path of the vault's index directory `<vault>/.index`. -/
def indexDir (vault : FsPath) : FsPath := vault ++ [".index"]

/-- The path of `<vault>/.index/faiss_index.bin`. -/
def indexFilePath (vault : FsPath) : FsPath := vault ++ [".index", "faiss_index.bin"]

/-- `_bulk_index_vault` (lines 123-137): chunk every markdown file,
embed all chunks in one batch, obtain an index from `load_faiss`
(passing the batch dimension — the model's fixed dimension is
irrelevant because `load_faiss` never uses it), add the vectors, and
persist index and metadata.  With zero chunks the batch is empty and
`vecs.shape[1]` raises before anything is written; persisting into a
missing `.index` directory raises as well. -/
def _bulk_index_vault (vault : FsPath) (st : St) : St × Except Err Unit :=
  let chunks := bulkRecords vault st.files
  let embeddings := chunks.map MetaRec.para
  let vecs := embed_texts embeddings
  if vecs.isEmpty then (st, .error .shapeError)
  else
    match load_faiss st.ambient (some (.dim 1)) with
    | .error e => (st, .error e)
    | .ok index =>
      if memB (indexDir vault) st.dirs then
        ({ st with indexFile := some (index ++ vecs), metaFile := some chunks }, .ok ())
      else (st, .error .fileNotFound)

/-- `_ensure_index` (lines 117-121): create `.index` (`mkdir`,
`exist_ok=True`), then bulk-index the vault if `faiss_index.bin` is
absent. -/
def _ensure_index (vault : FsPath) (st : St) : St × Except Err Unit :=
  let st1 : St :=
    { st with dirs := if memB (indexDir vault) st.dirs then st.dirs
                      else st.dirs ++ [indexDir vault] }
  if st1.indexFile.isSome then (st1, .ok ()) else _bulk_index_vault vault st1

/-- `_remove_from_index` (lines 158-168): unlink both artifacts if
present, then bulk-index the whole vault.  The `file_path` argument is
unused, exactly as in the source. -/
def _remove_from_index (vault : FsPath) (st : St) (filePath : FsPath) :
    St × Except Err Unit :=
  let _ := filePath
  let st1 : St := { st with metaFile := none, indexFile := none }
  _bulk_index_vault vault st1

/-- `_index_file` (lines 139-156): ensure the index exists, load an
index object via `load_faiss(self.INDEX_FILE)` and read `chunks.json`,
optionally run `_remove_from_index`, then read the file, embed its
whole text as a single batch entry, append one vector and one metadata
record, and persist both — overwriting whatever `_remove_from_index`
just rebuilt, because the appended-to pair was loaded before the
removal. -/
def _index_file (vault : FsPath) (st : St) (path : FsPath) (overwrite : Bool) :
    St × Except Err Unit :=
  match _ensure_index vault st with
  | (st1, .error e) => (st1, .error e)
  | (st1, .ok ()) =>
    match load_faiss st1.ambient (some (.idxPath (indexFilePath vault))) with
    | .error e => (st1, .error e)
    | .ok index =>
      match st1.metaFile with
      | none => (st1, .error .fileNotFound)
      | some chunks =>
        let step := if overwrite then _remove_from_index vault st1 path else (st1, .ok ())
        match step with
        | (st2, .error e) => (st2, .error e)
        | (st2, .ok ()) =>
          match lookupFile st2.files path with
          | none => (st2, .error .fileNotFound)
          | some txt =>
            let vecs := embed_texts [txt]
            if memB (indexDir vault) st2.dirs then
              ({ st2 with indexFile := some (index ++ vecs),
                          metaFile := some (chunks ++ [MetaRec.mk path txt]) }, .ok ())
            else (st2, .error .fileNotFound)

/-- `_abs` (lines 30-42): resolve `VAULT_PATH / rel` and reject the
result unless it is the vault root or below it
(`Path.is_relative_to`). -/
def _abs (vault : FsPath) (rel : List String) : Except Err FsPath :=
  let p := resolvePath (vault ++ rel)
  if isPrefixB vault p then .ok p else .error .pathEscape

/-- The strict ancestors of `p` that `mkdir(parents=True)` creates:
every nonempty proper prefix of `p` up to and including `p.parent`. -/
def parentPrefixes (p : FsPath) : List FsPath :=
  (List.range (p.length - 1)).map (fun n => p.take (n + 1))

/-- Add the directories not already present. -/
def addDirs (ds : List FsPath) (new : List FsPath) : List FsPath :=
  ds ++ new.filter (fun d => !memB d ds)

/-- `_write` (lines 44-53): `path.parent.mkdir(parents=True,
exist_ok=True)` followed by an overwriting text write. -/
def _write (st : St) (path : FsPath) (data : String) : St :=
  { st with dirs := addDirs st.dirs (parentPrefixes path),
            files := setFileList st.files path data }

/-- Render a relative path the way the result messages interpolate it. -/
def relString (rel : List String) : String := String.intercalate "/" rel

/-- `_create` (lines 67-82). -/
def _create (vault : FsPath) (st : St) (rel : List String) (content : String) :
    St × Except Err String :=
  match _abs vault rel with
  | .error e => (st, .error e)
  | .ok path =>
    if pathExists st path then
      (st, .ok ("File " ++ relString rel ++ " already exists."))
    else
      let st1 := _write st path content
      match _index_file vault st1 path false with
      | (st2, .error e) => (st2, .error e)
      | (st2, .ok ()) => (st2, .ok ("Created " ++ relString rel ++ "."))

/-- `_update` (lines 84-99). -/
def _update (vault : FsPath) (st : St) (rel : List String) (content : String) :
    St × Except Err String :=
  match _abs vault rel with
  | .error e => (st, .error e)
  | .ok path =>
    if !pathExists st path then
      (st, .ok ("File " ++ relString rel ++ " not found."))
    else
      let st1 := _write st path content
      match _index_file vault st1 path true with
      | (st2, .error e) => (st2, .error e)
      | (st2, .ok ()) => (st2, .ok ("Updated " ++ relString rel ++ "."))

/-- `_delete` (lines 101-115). -/
def _delete (vault : FsPath) (st : St) (rel : List String) :
    St × Except Err String :=
  match _abs vault rel with
  | .error e => (st, .error e)
  | .ok path =>
    if !pathExists st path then
      (st, .ok (relString rel ++ " does not exist."))
    else
      match lookupFile st.files path with
      | none => (st, .error .isADirectory)
      | some _ =>
        let st1 : St := { st with files := removeFileList st.files path }
        match _remove_from_index vault st1 path with
        | (st2, .error e) => (st2, .error e)
        | (st2, .ok ()) => (st2, .ok ("Deleted " ++ relString rel ++ "."))

/-- `_read` as dispatched by `_run` (line 212): `self._read(self._abs(path))`.
Touches neither the filesystem nor the index. -/
def _read (vault : FsPath) (st : St) (rel : List String) : Except Err String :=
  match _abs vault rel with
  | .error e => .error e
  | .ok path =>
    match lookupFile st.files path with
    | some c => .ok c
    | none => .error .fileNotFound

/-- Python sequence indexing `l[i]`: nonnegative indices below the
length, or negative indices from `-len` wrapping from the end;
anything else raises `IndexError` (`none`). -/
def pyGet {α : Type} (l : List α) (i : Int) : Option α :=
  if 0 ≤ i then l.get? i.toNat
  else if 0 ≤ (l.length : Int) + i then l.get? ((l.length : Int) + i).toNat
  else none

/-- The positions row `I[0]` of `faiss.IndexFlat.search` for one query:
`min k ntotal` valid neighbor positions followed by `-1` padding up to
`k`.  Which valid positions come back (the similarity ranking) is
abstracted as `0, 1, …` — every claim below depends only on their
range, never on the ranking. -/
def searchPositions (ntotal k : Nat) : List Int :=
  (List.range (min k ntotal)).map Int.ofNat ++
    List.replicate (k - min k ntotal) (-1)

/-- The generator feeding `"\n\n".join(chunks[i]["para"] for i in I[0])`:
look every returned position up in the metadata records, raising
`IndexError` at the first invalid one. -/
def gatherParas (chunks : List MetaRec) : List Int → Except Err (List String)
  | [] => .ok []
  | i :: rest =>
    match pyGet chunks i with
    | none => .error .indexError
    | some r =>
      match gatherParas chunks rest with
      | .error e => .error e
      | .ok l => .ok (r.para :: l)

/-- `_ask` (lines 170-189): ensure the index, load an index object via
`load_faiss(self.INDEX_FILE)`, read `chunks.json`, embed the question,
search, and assemble the context from the returned positions. -/
def _ask (vault : FsPath) (st : St) (question : String) (k : Nat := 5) :
    St × Except Err String :=
  match _ensure_index vault st with
  | (st1, .error e) => (st1, .error e)
  | (st1, .ok ()) =>
    match load_faiss st1.ambient (some (.idxPath (indexFilePath vault))) with
    | .error e => (st1, .error e)
    | .ok index =>
      match st1.metaFile with
      | none => (st1, .error .fileNotFound)
      | some chunks =>
        let _qvec := embed_texts [question]
        let positions := searchPositions index.length k
        match gatherParas chunks positions with
        | .error e => (st1, .error e)
        | .ok paras =>
          (st1, .ok ("QUESTION:\n" ++ question ++ "\n\nCONTEXT:\n" ++
            String.intercalate "\n\n" paras ++ "\n\nAnswer (simulated): ...\n"))

/-- The positions list `I[0]` that `_ask` uses to assemble the context,
when execution reaches the search: the same pipeline as `_ask`,
observing the positions instead of the assembled string. -/
def askUsedPositions (vault : FsPath) (st : St) (question : String) (k : Nat := 5) :
    Option (List Int) :=
  match _ensure_index vault st with
  | (_, .error _) => none
  | (st1, .ok ()) =>
    match load_faiss st1.ambient (some (.idxPath (indexFilePath vault))) with
    | .error _ => none
    | .ok index =>
      match st1.metaFile with
      | none => none
      | some _ =>
        let _qvec := embed_texts [question]
        some (searchPositions index.length k)

/-- The metadata records `_ask` reads from `chunks.json` and indexes
into, when execution reaches that read: the same pipeline as `_ask`,
observing the loaded records. -/
def askReadMeta (vault : FsPath) (st : St) : Option (List MetaRec) :=
  match _ensure_index vault st with
  | (_, .error _) => none
  | (st1, .ok ()) =>
    match load_faiss st1.ambient (some (.idxPath (indexFilePath vault))) with
    | .error _ => none
    | .ok _ => st1.metaFile

/-! ## Maintenance engine (`src/vault_ops/maintenance.py`)

Only the two passes the claims are about are embedded: the
orphan-attachment pruning block (`"orphans" in tasks`, lines 20-27) and
the backlink-synthesis block (`"backlinks" in tasks`, lines 28-47) of
`run_maintenance`. -/

/-- A character of the character class `[\\^]` of the backlink pass's
pattern: a backslash or a caret. -/
def isClassChar (c : Char) : Bool := c = '\\' || c = '^'

/-- Length of the maximal leading run of class characters. -/
def classRun : List Char → Nat
  | [] => 0
  | c :: rest => if isClassChar c then classRun rest + 1 else 0

/-- Greedy backtracking for `[\\^]+` followed by the literal characters
backslash and `]`: the largest `j ≥ 1` not exceeding the given bound
such that the two literals follow after `j` class characters. -/
def tryBacktrack (rest : List Char) : Nat → Option Nat
  | 0 => none
  | j + 1 =>
    if isPrefixB ['\\', ']'] (rest.drop (j + 1)) then some (j + 1)
    else tryBacktrack rest j

/-- Match of the backlink pass's pattern `r"\\[\\^\\]+\\]"` — as a
regular expression: a literal backslash, one or more characters from
`[\\^]`, a literal backslash, a literal `]` — anchored at the head of
the character list, returning the match length. -/
def matchLen (cs : List Char) : Option Nat :=
  match cs with
  | '\\' :: rest =>
    match tryBacktrack rest (classRun rest) with
    | some j => some (1 + j + 2)
    | none => none
  | _ => none

/-- `re.findall` of the backlink pattern: scan left to right, taking
non-overlapping matches and resuming after each one (the pattern has no
capture group, so each element is the whole match).  The fuel is the
input length; every step consumes at least one character. -/
def scanLinks : Nat → List Char → List String
  | 0, _ => []
  | _ + 1, [] => []
  | fuel + 1, c :: cs =>
    match matchLen (c :: cs) with
    | some l => String.mk ((c :: cs).take l) :: scanLinks fuel ((c :: cs).drop l)
    | none => scanLinks fuel cs

/-- The link targets `re.findall(r"\\[\\^\\]+\\]", text)` extracts
(`maintenance.py` line 31). -/
def linkMatches (s : String) : List String := scanLinks s.data.length s.data

/-- The literal the strip step searches for (`maintenance.py` line 40). -/
def blNeedle : List Char := '\n' :: "## Backlinks".data

/-- `re.sub(r"\n## Backlinks.*", "", content, flags=re.DOTALL)`: with
`DOTALL`, everything from the first occurrence of `"\n## Backlinks"` to
the end of the string is removed. -/
def stripTail (cs : List Char) : List Char :=
  match findSub blNeedle cs with
  | none => cs
  | some i => cs.take i

/-- String version of `stripTail`. -/
def stripBacklinks (s : String) : String := String.mk (stripTail s.data)

/-- `pathlib.Path(name).stem` for a file name: the name without its last
suffix; a lone leading dot does not start a suffix. -/
def stemOfName (s : String) : String :=
  match findSub ['.'] s.data.reverse with
  | none => s
  | some r =>
    let idx := s.data.length - 1 - r
    if idx = 0 then s else String.mk (s.data.take idx)

/-- `pathlib.Path(name).suffix` for a file name: the last suffix
including its dot, `""` when there is none. -/
def suffixOf (s : String) : String :=
  match findSub ['.'] s.data.reverse with
  | none => ""
  | some r =>
    let idx := s.data.length - 1 - r
    if idx = 0 then "" else String.mk (s.data.drop idx)

/-- `backlinks[str(target_path)].append(str(p))` with the
`if ... not in backlinks` initialisation (`maintenance.py` lines 33-36):
append to the key's list, creating the key at the end on first use. -/
def addTo (m : List (FsPath × List FsPath)) (key : FsPath) (v : FsPath) :
    List (FsPath × List FsPath) :=
  match m with
  | [] => [(key, [v])]
  | (k, vs) :: rest =>
    if k = key then (k, vs ++ [v]) :: rest else (k, vs) :: addTo rest key v

/-- Dictionary lookup in the reverse-reference map. -/
def lookupBL : List (FsPath × List FsPath) → FsPath → Option (List FsPath)
  | [], _ => none
  | (k, vs) :: rest, key => if k = key then some vs else lookupBL rest key

/-- The first loop of the backlink pass (`maintenance.py` lines 29-36):
for every note in enumeration order, for every extracted target, if the
file `<vault>/<target>.md` exists, record the note as a backlink source
of that file. -/
def buildBacklinks (vault : FsPath) (st : St) : List (FsPath × List FsPath) :=
  (mdFilesOf vault st).foldl
    (fun m pc =>
      (linkMatches pc.2).foldl
        (fun m target =>
          let tgt := vault ++ [target ++ ".md"]
          if pathExists st tgt then addTo m tgt pc.1 else m) m)
    []

/-- The generated section (`maintenance.py` lines 42-45). -/
def backlinkSection (srcs : List FsPath) : String :=
  "\n## Backlinks\n\n" ++
    String.join (srcs.map (fun s => "- [[" ++ stemOfName (lastComp s) ++ "]]\n"))

/-- The per-note rewrite of the second loop (`maintenance.py` lines
38-46): strip any previous section, then append a fresh one when the
note has recorded inbound references. -/
def rewriteNote (bl : List (FsPath × List FsPath)) (p : FsPath) (c : String) : String :=
  let c1 := stripBacklinks c
  match lookupBL bl p with
  | some srcs => c1 ++ backlinkSection srcs
  | none => c1

/-- The backlink-synthesis pass (`maintenance.py` lines 28-47).  The
source iterates `rglob` and rewrites each note file in place; each note
is read before its own write and no other note's read is affected by
it, so the pass equals an independent per-note rewrite using the
reverse-reference map computed from the pre-pass contents. -/
def backlinksPass (vault : FsPath) (st : St) : St :=
  let bl := buildBacklinks vault st
  let rewritten := st.files.map
    (fun pc => if isMdUnder vault pc.1 then (pc.1, rewriteNote bl pc.1 pc.2) else pc)
  { st with files := rewritten }

/-- Does the file name have one of the recognised attachment suffixes
(`img.suffix in {".png", ".jpg", ".pdf"}`, `maintenance.py` line 25)? -/
def isAttachment (p : FsPath) : Bool :=
  suffixOf (lastComp p) = ".png" || suffixOf (lastComp p) = ".jpg" ||
    suffixOf (lastComp p) = ".pdf"

/-- The orphan-attachment pruning pass (`maintenance.py` lines 20-27).
The reference-collection pattern `r"!\\[\\]\((.*?)\")"` is
syntactically invalid as a regular expression (unbalanced parenthesis
at position 16), so `re.findall` raises `re.error` at its first call —
that is, whenever the vault contains at least one markdown file.  When
it contains none, the loop body never runs, the pattern is never
compiled, the reference set stays empty, and every attachment under the
vault is unlinked as an orphan. -/
def orphansPass (vault : FsPath) (st : St) : St × Except Err String :=
  if (mdFilesOf vault st).isEmpty then
    let orphans := st.files.filter (fun pc => isPrefixB vault pc.1 && isAttachment pc.1)
    let kept := st.files.filter (fun pc => !(isPrefixB vault pc.1 && isAttachment pc.1))
    ({ st with files := kept },
      .ok ("Deleted " ++ toString orphans.length ++ " orphan attachments."))
  else (st, .error .regexError)

/-- Modelled from the spec: the spec's §3 "Attachment reference" — "a
directed edge `(source_note, target_file)` extracted via an embed/image
pattern".  The source's own extraction pattern is syntactically invalid
and never yields a reference, so the spec-level notion is embedded
directly: the embed targets of a note are the `tgt` parts of the
markdown image embeds `![](tgt)` occurring in its content. -/
def embedTargets : Nat → List Char → List String
  | 0, _ => []
  | _ + 1, [] => []
  | fuel + 1, c :: cs =>
    if isPrefixB ['!', '[', ']', '('] (c :: cs) then
      let rest := (c :: cs).drop 4
      let tgt := rest.takeWhile (fun ch => decide (ch ≠ ')'))
      String.mk tgt :: embedTargets fuel (rest.drop (tgt.length + 1))
    else embedTargets fuel cs

/-- Modelled from the spec: file `f` is referenced by at least one Note
when some markdown file's content contains an embed whose target,
resolved against the vault root (`(vault / m).resolve()`), is `f`. -/
def referencedB (vault : FsPath) (st : St) (f : FsPath) : Bool :=
  (mdFilesOf vault st).any (fun pc =>
    (embedTargets pc.2.data.length pc.2.data).any (fun t =>
      decide (resolvePath
        (vault ++ (splitSub ['/'] (t.data.length + 1) t.data).map String.mk) = f)))

/-- Does the note content contain no occurrence of the two-character
sequence backslash-`]`?  Every match of the backlink pass's pattern
ends in exactly that sequence, so contents without it contribute no
link targets. -/
def noPatternText (s : String) : Bool := (findSub ['\\', ']'] s.data).isNone

/-- The per-note rewrite of the backlink pass when the reverse-reference
map is empty: only the strip step acts.  (`rewriteNote [] p c` reduces
definitionally to this.) -/
def stripNote (vault : FsPath) : FsPath × String → FsPath × String :=
  fun pc => if isMdUnder vault pc.1 then (pc.1, stripBacklinks pc.2) else pc

/-- Did the call fail, with an error different from the spec's
`EmptyIndex`? -/
def failsWithoutEmptyIndex : Except Err String → Bool
  | .error e => decide (e ≠ Err.emptyIndex)
  | .ok _ => false

/-! ## Concrete example states used by the claim theorems -/

/-- The example vault root used by the concrete scenarios. -/
def exV : FsPath := ["v"]

/-- An empty vault whose process working directory holds a stray
`./vector_store/faiss_index.bin` with two vectors. -/
def exStAmbient2 : St :=
  { files := [], dirs := [["v"]], indexFile := none, metaFile := none,
    ambient := some ["u1", "u2"] }

/-- A vault with one indexed note and a consistent persisted pair, no
stray working-directory index. -/
def exStOneNote : St :=
  { files := [(["v", "a.md"], "old")], dirs := [["v"], ["v", ".index"]],
    indexFile := some ["old"], metaFile := some [MetaRec.mk ["v", "a.md"] "old"],
    ambient := none }

/-- An empty vault with an (empty) persisted pair and a stray
working-directory index with one vector. -/
def exStEmptyPair : St :=
  { files := [], dirs := [["v"], ["v", ".index"]],
    indexFile := some [], metaFile := some [], ambient := some ["u"] }

/-- A fresh empty vault: nothing persisted, no stray index. -/
def exStFresh : St :=
  { files := [], dirs := [["v"]], indexFile := none, metaFile := none,
    ambient := none }

/-- One indexed note with a consistent pair, plus a stray
working-directory index holding one vector. -/
def exStHello : St :=
  { files := [(["v", "a.md"], "hello")], dirs := [["v"], ["v", ".index"]],
    indexFile := some ["hello"], metaFile := some [MetaRec.mk ["v", "a.md"] "hello"],
    ambient := some ["w"] }

/-- A vault that already contains the note `x.md`. -/
def exStExisting : St :=
  { files := [(["v", "x.md"], "hi")], dirs := [["v"]],
    indexFile := none, metaFile := none, ambient := none }

/-- A vault holding two attachments and no notes. -/
def exStAttachments : St :=
  { files := [(["v", "img.png"], "PNG"), (["v", "doc.pdf"], "PDF")],
    dirs := [["v"]], indexFile := none, metaFile := none, ambient := none }

/-- The backlink-pass scenario: `B.md` carries an old Backlinks tail
containing the text `\^\]` (which the pass's pattern matches), and a
note named `\^\].md` exists. -/
def exStBacklinks : St :=
  { files := [(["v", "B.md"], "y\n## Backlinks\nz\\^\\]"), (["v", "\\^\\].md"], "w")],
    dirs := [["v"]], indexFile := none, metaFile := none, ambient := none }

/-- Two ordinary notes, one with a wiki link and an old Backlinks tail. -/
def exStOrdinary : St :=
  { files := [(["v", "A.md"], "[[B]]\n## Backlinks\nold"), (["v", "B.md"], "x")],
    dirs := [["v"]], indexFile := none, metaFile := none, ambient := none }

/-- The context string `_ask` assembles on `exStHello` with the default
`k = 5`: one valid position and four `-1` paddings, each of which wraps
to the last (only) record. -/
def exAnswer : String :=
  "QUESTION:\nq\n\nCONTEXT:\nhello\n\nhello\n\nhello\n\nhello\n\nhello\n\nAnswer (simulated): ...\n"


/-! ## Helper lemmas -/

theorem memB_iff {α : Type} [DecidableEq α] (x : α) (l : List α) :
    memB x l = true ↔ x ∈ l := by
  simp only [memB, List.any_eq_true, decide_eq_true_eq]
  exact ⟨fun ⟨y, hy, he⟩ => he ▸ hy, fun hx => ⟨x, hx, rfl⟩⟩

theorem lookupFile_set_self (fs : List (FsPath × String)) (p : FsPath) (c : String) :
    lookupFile (setFileList fs p c) p = some c := by
  induction fs with
  | nil => simp [setFileList, lookupFile]
  | cons hd tl ih =>
    obtain ⟨q, d⟩ := hd
    by_cases h : q = p
    · simp [setFileList, h, lookupFile]
    · simp [setFileList, h, lookupFile, ih]

theorem mem_addDirs_of_mem_new (ds new : List FsPath) (d : FsPath)
    (h : d ∈ new) : d ∈ addDirs ds new := by
  by_cases hm : memB d ds = true
  · exact List.mem_append_left _ ((memB_iff d ds).mp hm)
  · refine List.mem_append_right _ (List.mem_filter.mpr ⟨h, ?_⟩)
    simp only [Bool.not_eq_true] at hm
    simp [hm]

theorem mem_addDirs_left (ds new : List FsPath) (d : FsPath)
    (h : d ∈ ds) : d ∈ addDirs ds new :=
  List.mem_append_left _ h

theorem memB_addDirs_left (ds new : List FsPath) (d : FsPath)
    (h : memB d ds = true) : memB d (addDirs ds new) = true := by
  have hd : d ∈ ds := (memB_iff d ds).mp h
  exact (memB_iff d _).mpr (List.mem_append_left _ hd)

/-- `_bulk_index_vault` never changes the plain files or the directories. -/
theorem bulk_files_dirs (vault : FsPath) (st : St) :
    (_bulk_index_vault vault st).1.files = st.files ∧
    (_bulk_index_vault vault st).1.dirs = st.dirs := by
  unfold _bulk_index_vault
  repeat' split
  all_goals simp [apply_ite]

/-- `_ensure_index` never changes the plain files, and only ever adds a
directory. -/
theorem ensure_files_dirs (vault : FsPath) (st : St) :
    (_ensure_index vault st).1.files = st.files ∧
    ∀ d ∈ st.dirs, d ∈ (_ensure_index vault st).1.dirs := by
  unfold _ensure_index
  dsimp only
  constructor
  · split
    · rfl
    · rw [(bulk_files_dirs vault _).1]
  · intro d hd
    split
    · split <;> simp [hd]
    · rw [(bulk_files_dirs vault _).2]
      split <;> simp [hd]

/-- `_remove_from_index` never changes the plain files or the directories. -/
theorem remove_files_dirs (vault : FsPath) (st : St) (fp : FsPath) :
    (_remove_from_index vault st fp).1.files = st.files ∧
    (_remove_from_index vault st fp).1.dirs = st.dirs := by
  unfold _remove_from_index
  exact bulk_files_dirs vault _

/-- When `_ensure_index` already finds a persisted index, it only adds
the `.index` directory and reports success. -/
theorem ensure_of_some (vault : FsPath) (st : St) (idx : List String)
    (hidx : st.indexFile = some idx) :
    _ensure_index vault st =
      ({ st with dirs := if memB (indexDir vault) st.dirs then st.dirs
                         else st.dirs ++ [indexDir vault] }, .ok ()) := by
  unfold _ensure_index
  simp [hidx]

/-- With no persisted index and zero chunks in the vault, the bootstrap
rebuild inside `_ensure_index` raises at `vecs.shape[1]`. -/
theorem ensure_of_none_empty (vault : FsPath) (st : St)
    (hidx : st.indexFile = none) (hchunks : bulkRecords vault st.files = []) :
    _ensure_index vault st =
      ({ st with dirs := if memB (indexDir vault) st.dirs then st.dirs
                         else st.dirs ++ [indexDir vault] }, .error .shapeError) := by
  unfold _ensure_index _bulk_index_vault
  simp [hidx, hchunks, embed_texts]

/-- `_index_file` never changes the plain files. -/
theorem index_file_files (vault : FsPath) (st : St) (p : FsPath) (b : Bool) :
    (_index_file vault st p b).1.files = st.files := by
  unfold _index_file
  rcases h1 : _ensure_index vault st with ⟨st1, r1⟩
  have hf1 : st1.files = st.files := by
    have := (ensure_files_dirs vault st).1
    rw [h1] at this
    exact this
  cases r1 with
  | error e => simpa using hf1
  | ok u =>
    cases u
    cases hlf : load_faiss st1.ambient (some (.idxPath (indexFilePath vault))) with
    | error e => simp only [hlf]; simpa using hf1
    | ok index =>
      simp only [hlf]
      cases hm : st1.metaFile with
      | none => simpa using hf1
      | some chunks =>
        dsimp only
        cases b with
        | false =>
          simp only [Bool.false_eq_true, if_false]
          cases hlk : lookupFile st1.files p with
          | none => simp only [hlk]; simpa using hf1
          | some txt => simp only [hlk]; split <;> simpa using hf1
        | true =>
          simp only [if_true]
          rcases h4 : _remove_from_index vault st1 p with ⟨st2, r2⟩
          have hf2 : st2.files = st1.files := by
            have := (remove_files_dirs vault st1 p).1
            rw [h4] at this
            exact this
          cases r2 with
          | error e => simp [hf2, hf1]
          | ok u2 =>
            cases u2
            dsimp only
            cases hlk : lookupFile st2.files p with
            | none => simp only [hlk]; simp [hf2, hf1]
            | some txt => simp only [hlk]; split <;> simp [hf2, hf1]

/-- `_index_file` only ever adds directories. -/
theorem index_file_dirs_mono (vault : FsPath) (st : St) (p : FsPath) (b : Bool)
    (d : FsPath) (hd : d ∈ st.dirs) : d ∈ (_index_file vault st p b).1.dirs := by
  unfold _index_file
  rcases h1 : _ensure_index vault st with ⟨st1, r1⟩
  have hd1 : d ∈ st1.dirs := by
    have := (ensure_files_dirs vault st).2 d hd
    rw [h1] at this
    exact this
  cases r1 with
  | error e => simpa using hd1
  | ok u =>
    cases u
    cases hlf : load_faiss st1.ambient (some (.idxPath (indexFilePath vault))) with
    | error e => simp only [hlf]; simpa using hd1
    | ok index =>
      simp only [hlf]
      cases hm : st1.metaFile with
      | none => simpa using hd1
      | some chunks =>
        dsimp only
        cases b with
        | false =>
          simp only [Bool.false_eq_true, if_false]
          cases hlk : lookupFile st1.files p with
          | none => simp only [hlk]; simpa using hd1
          | some txt => simp only [hlk]; split <;> simpa using hd1
        | true =>
          simp only [if_true]
          rcases h4 : _remove_from_index vault st1 p with ⟨st2, r2⟩
          have hd2 : d ∈ st2.dirs := by
            have := (remove_files_dirs vault st1 p).2
            rw [h4] at this
            simp only at this
            rw [this]
            exact hd1
          cases r2 with
          | error e => simpa using hd2
          | ok u2 =>
            cases u2
            dsimp only
            cases hlk : lookupFile st2.files p with
            | none => simp only [hlk]; simpa using hd2
            | some txt => simp only [hlk]; split <;> simpa using hd2

theorem pyGet_nil {α : Type} (i : Int) : pyGet ([] : List α) i = none := by
  unfold pyGet
  split
  · simp
  · split <;> simp

theorem searchPositions_length (n k : Nat) : (searchPositions n k).length = k := by
  unfold searchPositions
  rw [List.length_append, List.length_map, List.length_range, List.length_replicate]
  omega

theorem searchPositions_ne_nil (n k : Nat) (hk : 1 ≤ k) : searchPositions n k ≠ [] := by
  have h := searchPositions_length n k
  intro hc
  rw [hc] at h
  simp at h
  omega

/-! ## Claim theorems (part 1) -/

/-- C7: for every path at which a file already exists, a second
`create(path, content)` returns the "already exists" outcome and leaves
the entire state — the existing file's contents and the persisted
{Vector Index, Metadata Store} pair — unchanged: the early return fires
before any write or index call. -/
theorem create_existing_returns_already_exists
    (vault : FsPath) (st : St) (rel : List String) (content : String) (p : FsPath)
    (habs : _abs vault rel = .ok p) (hex : pathExists st p = true) :
    _create vault st rel content = (st, .ok ("File " ++ relString rel ++ " already exists.")) := by
  unfold _create
  simp only [habs, hex, if_true]

/-- C9: for every relative path whose resolved absolute form is not a
descendant of the vault root (including `..`-traversal), the path guard
raises the path-escape error, and every Vault Store operation — create,
read, update, delete — invoked with such a path fails with that error
without touching the filesystem or the index. -/
theorem escaping_path_rejected
    (vault : FsPath) (st : St) (rel : List String) (content : String)
    (h : isPrefixB vault (resolvePath (vault ++ rel)) = false) :
    _create vault st rel content = (st, .error .pathEscape) ∧
    _read vault st rel = .error .pathEscape ∧
    _update vault st rel content = (st, .error .pathEscape) ∧
    _delete vault st rel = (st, .error .pathEscape) := by
  have habs : _abs vault rel = .error .pathEscape := by
    unfold _abs
    simp [h]
  refine ⟨?_, ?_, ?_, ?_⟩
  · unfold _create; simp only [habs]
  · unfold _read; simp only [habs]
  · unfold _update; simp only [habs]
  · unfold _delete; simp only [habs]

/-- C2: the orphan-attachment pruning pass never deletes a file that is
referenced, via a markdown embed/image reference, by at least one Note;
only files referenced by no Note are deleted.  In the code, whenever at
least one markdown file exists the pass raises `re.error` (its pattern
is syntactically invalid) before deleting anything, so every deletion
happens in a note-free vault, where nothing is referenced. -/
theorem orphan_prune_never_deletes_referenced
    (vault : FsPath) (st : St) (f : FsPath) (c : String)
    (hfile : lookupFile st.files f = some c)
    (hgone : lookupFile (orphansPass vault st).1.files f = none) :
    referencedB vault st f = false := by
  by_cases h : (mdFilesOf vault st).isEmpty = true
  · have hnil : mdFilesOf vault st = [] := by
      cases hmd : mdFilesOf vault st with
      | nil => rfl
      | cons a l => rw [hmd] at h; simp at h
    unfold referencedB
    rw [hnil]
    rfl
  · exfalso
    unfold orphansPass at hgone
    simp only [h, Bool.false_eq_true, if_false] at hgone
    rw [hgone] at hfile
    exact Option.noConfusion hfile

/-- C10 (amended): for every relative path with intermediate directories
that do not yet exist, `create`'s write step creates the missing parent
directories and writes the file — no operation fails because a
directory is absent — even though the call as a whole can still fail in
the subsequent indexing step (see the counterexample). -/
theorem create_makes_parent_dirs
    (vault : FsPath) (st : St) (rel : List String) (content : String) (p : FsPath)
    (habs : _abs vault rel = .ok p)
    (hnew : pathExists st p = false) :
    lookupFile (_create vault st rel content).1.files p = some content ∧
    ∀ d ∈ parentPrefixes p, d ∈ (_create vault st rel content).1.dirs := by
  unfold _create
  simp only [habs, hnew, Bool.false_eq_true, if_false]
  rcases h2 : _index_file vault (_write st p content) p false with ⟨st2, r2⟩
  have hf : st2.files = (_write st p content).files := by
    have := index_file_files vault (_write st p content) p false
    rw [h2] at this
    exact this
  have hdm : ∀ d ∈ (_write st p content).dirs, d ∈ st2.dirs := by
    intro d hd
    have := index_file_dirs_mono vault (_write st p content) p false d hd
    rw [h2] at this
    exact this
  have hwf : lookupFile (_write st p content).files p = some content := by
    unfold _write
    exact lookupFile_set_self st.files p content
  have hwd : ∀ d ∈ parentPrefixes p, d ∈ (_write st p content).dirs := by
    intro d hd
    unfold _write
    exact mem_addDirs_of_mem_new st.dirs (parentPrefixes p) d hd
  cases r2 with
  | error e =>
    refine ⟨by rw [hf]; exact hwf, fun d hd => hdm d (hwd d hd)⟩
  | ok u =>
    cases u
    refine ⟨by simpa [hf] using hwf, fun d hd => by simpa using hdm d (hwd d hd)⟩

/-- C4 (amended): the incremental add path used by `create` performs no
chunking: with a persisted index present and the stray
working-directory index present (so the load step succeeds), it appends
exactly one vector and one metadata record holding the entire content,
regardless of the number of blank-line-separated paragraphs.
Blank-line chunking with whitespace-only discard happens only in the
bulk rebuild. -/
theorem index_add_appends_single_record
    (vault : FsPath) (st : St) (rel : List String) (content : String) (p : FsPath)
    (m : List MetaRec) (idx av : List String)
    (habs : _abs vault rel = .ok p)
    (hnew : pathExists st p = false)
    (hidx : st.indexFile = some idx)
    (hamb : st.ambient = some av)
    (hmeta : st.metaFile = some m)
    (hdir : memB (indexDir vault) st.dirs = true) :
    (_create vault st rel content).1.metaFile = some (m ++ [MetaRec.mk p content]) ∧
    (_create vault st rel content).1.indexFile = some (av ++ [content]) ∧
    (_create vault st rel content).2 = .ok ("Created " ++ relString rel ++ ".") := by
  have hm2 : memB (indexDir vault) (addDirs st.dirs (parentPrefixes p)) = true :=
    memB_addDirs_left st.dirs (parentPrefixes p) (indexDir vault) hdir
  unfold _create _index_file _ensure_index _write load_faiss
  simp only [habs, hnew, Bool.false_eq_true, if_false, hidx, hamb, hmeta, hm2, if_true,
    Option.isSome_some, lookupFile_set_self, embed_texts]
  exact ⟨trivial, trivial, trivial⟩

/-- C5 (amended): for every question and every `k ≥ 1`, `ask` on a vault
containing zero chunks always fails, but with an incidental error
(shape error of the empty embedding batch, `TypeError` from the index
load, missing metadata, or `IndexError` during context assembly) —
never with the explicit EmptyIndex rejection the spec postulates. -/
theorem ask_zero_chunks_always_fails
    (vault : FsPath) (st : St) (q : String) (k : Nat) (hk : 1 ≤ k)
    (hchunks : bulkRecords vault st.files = [])
    (hmeta : st.metaFile = none ∨ st.metaFile = some []) :
    failsWithoutEmptyIndex (_ask vault st q k).2 = true := by
  unfold _ask
  cases hidx : st.indexFile with
  | none =>
    rw [ensure_of_none_empty vault st hidx hchunks]
    rfl
  | some idx =>
    rw [ensure_of_some vault st idx hidx]
    cases hamb : st.ambient with
    | none =>
      simp [hamb, load_faiss, failsWithoutEmptyIndex]
    | some av =>
      rcases hmeta with hm | hm
      · simp [hamb, load_faiss, hm, failsWithoutEmptyIndex]
      · have hne := searchPositions_ne_nil av.length k hk
        obtain ⟨i, rest, hps⟩ := List.exists_cons_of_ne_nil hne
        simp [hamb, load_faiss, hm, hps, gatherParas, pyGet_nil, failsWithoutEmptyIndex]


theorem gatherParas_ok_valid (chunks : List MetaRec) (ps : List Int) (l : List String)
    (h : gatherParas chunks ps = .ok l) :
    ∀ i ∈ ps, ∃ r, pyGet chunks i = some r := by
  induction ps generalizing l with
  | nil => intro i hi; cases hi
  | cons j rest ih =>
    intro i hi
    unfold gatherParas at h
    cases hpg : pyGet chunks j with
    | none => rw [hpg] at h; exact absurd h (by simp)
    | some r =>
      rw [hpg] at h
      cases hrest : gatherParas chunks rest with
      | error e => rw [hrest] at h; exact absurd h (by simp)
      | ok l2 =>
        rcases List.mem_cons.mp hi with rfl | hi2
        · exact ⟨r, hpg⟩
        · exact ih l2 hrest i hi2

theorem pyGet_some_bounds {α : Type} (l : List α) (i : Int) (r : α)
    (h : pyGet l i = some r) :
    -(l.length : Int) ≤ i ∧ i < (l.length : Int) := by
  unfold pyGet at h
  split at h
  · next hpos =>
    obtain ⟨hlt, -⟩ := List.get?_eq_some.mp h
    omega
  · next hneg =>
    split at h
    · next hge => omega
    · exact Option.noConfusion h

/-- C6 (amended): on every vault state on which `ask` succeeds, every
Metadata Store position used to assemble the returned context is a
valid Python index into the store, lying in `[-len, len)` — but not
necessarily in `[0, len)`: when the requested `k` exceeds the number of
stored vectors the search pads with `-1`, which wraps to the last
record (see the counterexample). -/
theorem ask_success_positions_python_valid
    (vault : FsPath) (st : St) (q : String) (k : Nat) (a : String) (ps : List Int)
    (chunks : List MetaRec)
    (hok : (_ask vault st q k).2 = .ok a)
    (hps : askUsedPositions vault st q k = some ps)
    (hch : askReadMeta vault st = some chunks) :
    ∀ i ∈ ps, -(chunks.length : Int) ≤ i ∧ i < (chunks.length : Int) := by
  unfold _ask at hok
  unfold askUsedPositions at hps
  unfold askReadMeta at hch
  rcases h1 : _ensure_index vault st with ⟨st1, r1⟩
  rw [h1] at hok hps hch
  clear h1
  cases r1 with
  | error e => exact absurd hps (by simp)
  | ok u =>
    cases u
    dsimp only at hok hps hch
    cases hlf : load_faiss st1.ambient (some (.idxPath (indexFilePath vault))) with
    | error e =>
      rw [hlf] at hps
      exact absurd hps (by simp)
    | ok index =>
      rw [hlf] at hok hps hch
      dsimp only at hok hps hch
      cases hm : st1.metaFile with
      | none =>
        rw [hm] at hps
        exact absurd hps (by simp)
      | some cs =>
        rw [hm] at hok hps hch
        dsimp only at hok hps hch
        obtain rfl : cs = chunks := Option.some.inj hch
        obtain rfl : searchPositions index.length k = ps := Option.some.inj hps
        cases hg : gatherParas cs (searchPositions index.length k) with
        | error e =>
          rw [hg] at hok
          exact absurd hok (by simp)
        | ok paras =>
          intro i hi
          obtain ⟨r, hr⟩ := gatherParas_ok_valid cs _ paras hg i hi
          exact pyGet_some_bounds cs i r hr


/-! ## Lemmas about the backlink pass's text functions -/

theorem isPrefixB_nil_of_cons {α : Type} [DecidableEq α] (a : α) (n : List α) :
    isPrefixB (a :: n) ([] : List α) = false := rfl

theorem isPrefixB_take {α : Type} [DecidableEq α] (n : List α) (X : List α) (m : Nat)
    (h : isPrefixB n (X.take m) = true) : isPrefixB n X = true := by
  induction n generalizing X m with
  | nil => rfl
  | cons a n' ih =>
    cases X with
    | nil =>
      rw [List.take_nil] at h
      exact absurd h (by simp [isPrefixB_nil_of_cons])
    | cons x X' =>
      cases m with
      | zero =>
        rw [List.take_zero] at h
        exact absurd h (by simp [isPrefixB_nil_of_cons])
      | succ m' =>
        rw [List.take_succ_cons] at h
        unfold isPrefixB at h ⊢
        rw [Bool.and_eq_true] at h ⊢
        exact ⟨h.1, ih X' m' h.2⟩

theorem dropTakeComm {α : Type} (cs : List α) (j n : Nat) :
    (cs.take n).drop j = (cs.drop j).take (n - j) := by
  by_cases h : j ≤ n
  · have heq : j + (n - j) = n := by omega
    nth_rewrite 1 [← heq]
    rw [← List.take_drop]
  · have h1 : (cs.take n).drop j = [] := by
      apply List.drop_eq_nil_of_le
      have := List.length_take n cs
      omega
    have h2 : n - j = 0 := by omega
    rw [h1, h2, List.take_zero]

theorem prefixAt_findSub {needle : List Char} (cs : List Char) (m : Nat)
    (h : isPrefixB needle (cs.drop m) = true) : (findSub needle cs).isSome = true := by
  induction cs generalizing m with
  | nil =>
    rw [List.drop_nil] at h
    unfold findSub
    rw [h]
    rfl
  | cons c rest ih =>
    cases m with
    | zero =>
      rw [List.drop_zero] at h
      unfold findSub
      rw [h]
      rfl
    | succ m' =>
      rw [List.drop_succ_cons] at h
      unfold findSub
      split
      · rfl
      · have hih := ih m' h
        cases hfs : findSub needle rest with
        | none => rw [hfs] at hih; exact Bool.noConfusion hih
        | some x => rfl

theorem findSub_prefix {needle : List Char} (cs : List Char) (i : Nat)
    (h : findSub needle cs = some i) : isPrefixB needle (cs.drop i) = true := by
  induction cs generalizing i with
  | nil =>
    unfold findSub at h
    split at h
    · next hp =>
      obtain rfl : (0 : Nat) = i := Option.some.inj h
      exact hp
    · exact Option.noConfusion h
  | cons c rest ih =>
    unfold findSub at h
    split at h
    · next hp =>
      obtain rfl : (0 : Nat) = i := Option.some.inj h
      exact hp
    · cases hfs : findSub needle rest with
      | none => rw [hfs] at h; exact Option.noConfusion h
      | some i' =>
        rw [hfs] at h
        simp only [Option.map_some'] at h
        obtain rfl : i' + 1 = i := Option.some.inj h
        rw [List.drop_succ_cons]
        exact ih i' hfs

theorem findSub_min {needle : List Char} (cs : List Char) (i : Nat)
    (h : findSub needle cs = some i) :
    ∀ j < i, isPrefixB needle (cs.drop j) = false := by
  induction cs generalizing i with
  | nil =>
    unfold findSub at h
    split at h
    · obtain rfl : (0 : Nat) = i := Option.some.inj h
      intro j hj
      omega
    · exact Option.noConfusion h
  | cons c rest ih =>
    unfold findSub at h
    split at h
    · obtain rfl : (0 : Nat) = i := Option.some.inj h
      intro j hj
      omega
    · next hp =>
      cases hfs : findSub needle rest with
      | none => rw [hfs] at h; exact Option.noConfusion h
      | some i' =>
        rw [hfs] at h
        simp only [Option.map_some'] at h
        obtain rfl : i' + 1 = i := Option.some.inj h
        intro j hj
        cases j with
        | zero =>
          rw [List.drop_zero]
          exact Bool.not_eq_true _ ▸ (by simpa using hp)
        | succ j' =>
          rw [List.drop_succ_cons]
          exact ih i' hfs j' (by omega)

theorem findSub_take_none {needle : List Char} (hne : needle ≠ []) (cs : List Char)
    (i : Nat) (h : findSub needle cs = some i) :
    findSub needle (cs.take i) = none := by
  cases hfs : findSub needle (cs.take i) with
  | none => rfl
  | some j =>
    exfalso
    have hpre := findSub_prefix (cs.take i) j hfs
    by_cases hj : j < i
    · rw [dropTakeComm] at hpre
      have := findSub_min cs i h j hj
      rw [isPrefixB_take needle (cs.drop j) (i - j) hpre] at this
      exact Bool.noConfusion this
    · have hlen : (cs.take i).drop j = [] := by
        apply List.drop_eq_nil_of_le
        have := List.length_take i cs
        omega
      rw [hlen] at hpre
      cases needle with
      | nil => exact hne rfl
      | cons a n' => rw [isPrefixB_nil_of_cons] at hpre; exact Bool.noConfusion hpre

theorem findSub_none_take {needle : List Char} (cs : List Char) (m : Nat)
    (h : findSub needle cs = none) : findSub needle (cs.take m) = none := by
  cases hfs : findSub needle (cs.take m) with
  | none => rfl
  | some j =>
    exfalso
    have hpre := findSub_prefix (cs.take m) j hfs
    rw [dropTakeComm] at hpre
    have := prefixAt_findSub cs j (isPrefixB_take needle (cs.drop j) (m - j) hpre)
    rw [h] at this
    exact Bool.noConfusion this

theorem blNeedle_ne_nil : blNeedle ≠ [] := by
  unfold blNeedle
  exact fun h => List.noConfusion h

theorem stripTail_no_needle (cs : List Char) :
    findSub blNeedle (stripTail cs) = none := by
  unfold stripTail
  cases h : findSub blNeedle cs with
  | none => exact h
  | some i => exact findSub_take_none blNeedle_ne_nil cs i h

theorem stripTail_idem (cs : List Char) : stripTail (stripTail cs) = stripTail cs := by
  unfold stripTail
  rw [show (match findSub blNeedle cs with
      | none => cs
      | some i => cs.take i) = stripTail cs from rfl]
  rw [stripTail_no_needle cs]

theorem tryBacktrack_pair (rest : List Char) (b j : Nat)
    (h : tryBacktrack rest b = some j) :
    isPrefixB ['\\', ']'] (rest.drop j) = true := by
  induction b with
  | zero => exact Option.noConfusion h
  | succ b' ih =>
    unfold tryBacktrack at h
    split at h
    · next hp =>
      obtain rfl : b' + 1 = j := Option.some.inj h
      exact hp
    · exact ih h

theorem matchLen_pair (cs : List Char) (l : Nat) (h : matchLen cs = some l) :
    (findSub ['\\', ']'] cs).isSome = true := by
  unfold matchLen at h
  split at h
  · next rest =>
    cases htb : tryBacktrack rest (classRun rest) with
    | none => rw [htb] at h; exact Option.noConfusion h
    | some j =>
      have hpre := tryBacktrack_pair rest (classRun rest) j htb
      exact prefixAt_findSub ('\\' :: rest) (j + 1) (by rw [List.drop_succ_cons]; exact hpre)
  · exact Option.noConfusion h

theorem findSub_cons_none {needle : List Char} (c : Char) (cs : List Char)
    (h : findSub needle (c :: cs) = none) : findSub needle cs = none := by
  unfold findSub at h
  split at h
  · exact Option.noConfusion h
  · cases hfs : findSub needle cs with
    | none => rfl
    | some i => rw [hfs] at h; exact Option.noConfusion h

theorem scanLinks_nil (fuel : Nat) (cs : List Char)
    (h : findSub ['\\', ']'] cs = none) : scanLinks fuel cs = [] := by
  induction fuel generalizing cs with
  | zero => rfl
  | succ fuel' ih =>
    cases cs with
    | nil => rfl
    | cons c rest =>
      unfold scanLinks
      cases hml : matchLen (c :: rest) with
      | some l =>
        exfalso
        have := matchLen_pair (c :: rest) l hml
        rw [h] at this
        exact Bool.noConfusion this
      | none =>
        exact ih rest (findSub_cons_none c rest h)

theorem linkMatches_nil (s : String) (h : noPatternText s = true) :
    linkMatches s = [] := by
  unfold linkMatches
  unfold noPatternText at h
  apply scanLinks_nil
  cases hfs : findSub ['\\', ']'] s.data with
  | none => rfl
  | some i => rw [hfs] at h; exact Bool.noConfusion h

theorem buildBacklinks_nil (vault : FsPath) (st : St)
    (h : ∀ pc ∈ mdFilesOf vault st, linkMatches pc.2 = []) :
    buildBacklinks vault st = [] := by
  unfold buildBacklinks
  have : ∀ (l : List (FsPath × String)) (acc : List (FsPath × List FsPath)),
      (∀ pc ∈ l, linkMatches pc.2 = []) → l.foldl
        (fun m pc =>
          (linkMatches pc.2).foldl
            (fun m target =>
              let tgt := vault ++ [target ++ ".md"]
              if pathExists st tgt then addTo m tgt pc.1 else m) m)
        acc = acc := by
    intro l
    induction l with
    | nil => intro acc _; rfl
    | cons hd tl ih =>
      intro acc hall
      rw [List.foldl_cons]
      rw [hall hd (List.mem_cons_self hd tl)]
      exact ih acc (fun pc hpc => hall pc (List.mem_cons_of_mem hd hpc))
  exact this (mdFilesOf vault st) [] h

theorem stripBacklinks_idem (s : String) :
    stripBacklinks (stripBacklinks s) = stripBacklinks s := by
  unfold stripBacklinks
  exact congrArg String.mk (stripTail_idem s.data)

theorem noPatternText_strip (s : String) (h : noPatternText s = true) :
    noPatternText (stripBacklinks s) = true := by
  unfold noPatternText at h ⊢
  unfold stripBacklinks stripTail
  cases hfs : findSub blNeedle s.data with
  | none => simpa [hfs] using h
  | some i =>
    simp only [hfs]
    cases hq : findSub ['\\', ']'] ((String.mk (s.data.take i)).data) with
    | none => rfl
    | some j =>
      exfalso
      have hq2 : findSub ['\\', ']'] (s.data.take i) = some j := hq
      cases hq3 : findSub ['\\', ']'] s.data with
      | some x => rw [hq3] at h; exact Bool.noConfusion h
      | none =>
        rw [findSub_none_take s.data i hq3] at hq2
        exact Option.noConfusion hq2

theorem stripNote_idem (vault : FsPath) (pc : FsPath × String) :
    stripNote vault (stripNote vault pc) = stripNote vault pc := by
  unfold stripNote
  by_cases hmd : isMdUnder vault pc.1 = true
  · simp only [hmd, if_true, stripBacklinks_idem]
  · simp only [hmd, Bool.false_eq_true, if_false]

theorem backlinksPass_of_nil (vault : FsPath) (st : St)
    (hbl : buildBacklinks vault st = []) :
    backlinksPass vault st = { st with files := st.files.map (stripNote vault) } := by
  unfold backlinksPass
  rw [hbl]
  exact rfl

/-- C8 (amended): the backlink-synthesis pass is idempotent on every
vault none of whose note contents contains the two-character sequence
backslash-`]` (then the pass's link pattern matches nothing, the
reverse-reference map is empty on both runs, and the pass reduces to
stripping trailing Backlinks sections, which is idempotent).  In
general it is not idempotent: a match inside a stripped tail changes
the reverse-reference map between runs (see the counterexample). -/
theorem backlinks_pass_idempotent_on_plain_vaults
    (vault : FsPath) (st : St)
    (h : ∀ pc ∈ mdFilesOf vault st, noPatternText pc.2 = true) :
    backlinksPass vault (backlinksPass vault st) = backlinksPass vault st := by
  have hbl : buildBacklinks vault st = [] :=
    buildBacklinks_nil vault st (fun pc hpc => linkMatches_nil _ (h pc hpc))
  have hA := backlinksPass_of_nil vault st hbl
  have h2 : ∀ pc ∈ mdFilesOf vault (backlinksPass vault st), noPatternText pc.2 = true := by
    intro pc hpc
    rw [hA] at hpc
    unfold mdFilesOf at hpc
    simp only at hpc
    obtain ⟨hmem, hmd⟩ := List.mem_filter.mp hpc
    obtain ⟨pc0, hpc0, hfeq⟩ := List.mem_map.mp hmem
    unfold stripNote at hfeq
    by_cases hmd0 : isMdUnder vault pc0.1 = true
    · rw [if_pos hmd0] at hfeq
      have hmem0 : pc0 ∈ mdFilesOf vault st := List.mem_filter.mpr ⟨hpc0, hmd0⟩
      rw [← hfeq]
      exact noPatternText_strip pc0.2 (h pc0 hmem0)
    · rw [if_neg hmd0] at hfeq
      subst hfeq
      exact absurd hmd hmd0
  have hbl2 : buildBacklinks vault (backlinksPass vault st) = [] :=
    buildBacklinks_nil vault _ (fun pc hpc => linkMatches_nil _ (h2 pc hpc))
  have hB := backlinksPass_of_nil vault (backlinksPass vault st) hbl2
  rw [hB, hA]
  dsimp only
  rw [List.map_map]
  have hmapeq : st.files.map (stripNote vault ∘ stripNote vault) =
      st.files.map (stripNote vault) :=
    List.map_congr_left (fun pc _ => stripNote_idem vault pc)
  rw [hmapeq]


/-! ## Claim theorems (part 2): concrete evaluations, counterexamples
and witnesses -/

/-- C1: the alignment invariant `len(MetadataStore) == VectorIndex.count()`
is violated by the code.  Failing input: an empty consistent vault with a
stray `./vector_store/faiss_index.bin` of two vectors in the process
working directory; a single `create("a.md", "x")` persists an index of
three vectors next to a metadata store of two records, because
`load_faiss` ignores the location it is given (its `d: int | None`
parameter receives a `Path`) and reads the stray working-directory file
on both the bulk and the incremental path. -/
theorem create_misaligns_persisted_pair :
    (_create exV exStAmbient2 ["a.md"] "x").1.indexFile.map List.length = some 3 ∧
    (_create exV exStAmbient2 ["a.md"] "x").1.metaFile.map List.length = some 2 ∧
    (3 : Nat) ≠ 2 :=
  ⟨by decide, by decide, by decide⟩

/-- C3: after `update`, the persisted pair is not what a full rebuild over
the post-write filesystem state would produce.  Failing input: a vault
with one indexed note `a.md` = "old" and a consistent pair, no stray
working-directory index; `update("a.md", "new")` overwrites the file but
then raises `TypeError` inside `load_faiss(self.INDEX_FILE)` — reached
before the `_remove_from_index` rebuild — leaving the stale pair whose
record still holds "old", while `rebuild_all` over the post-write state
yields exactly the "new" record. -/
theorem update_keeps_stale_pair_at_failing_input :
    (_update exV exStOneNote ["a.md"] "new").2 = .error .typeError ∧
    (_update exV exStOneNote ["a.md"] "new").1.metaFile
      = some [MetaRec.mk ["v", "a.md"] "old"] ∧
    bulkRecords exV (_update exV exStOneNote ["a.md"] "new").1.files
      = [MetaRec.mk ["v", "a.md"] "new"] ∧
    MetaRec.mk (["v", "a.md"] : FsPath) "old" ≠ MetaRec.mk ["v", "a.md"] "new" :=
  ⟨by decide, by decide, by decide, by decide⟩

/-- C4 counterexample: creating a note whose content has two non-empty
paragraphs appends exactly one metadata record, not two — the incremental
add path embeds the whole file as a single text instead of chunking
(state: empty persisted pair present, stray ambient index present, so the
append completes). -/
theorem create_two_paragraph_note_appends_one_record :
    paraChunks "a\n\nb" = ["a", "b"] ∧
    (_create exV exStEmptyPair ["n.md"] "a\n\nb").2 = .ok "Created n.md." ∧
    (_create exV exStEmptyPair ["n.md"] "a\n\nb").1.metaFile.map List.length = some 1 ∧
    (1 : Nat) ≠ 2 :=
  ⟨by decide, by decide, by decide, by decide⟩

/-- C4 witness: the amended per-call behaviour evaluated at the
two-paragraph input — one record holding the full content is appended. -/
theorem index_add_appends_single_record_witness :
    (_create exV exStEmptyPair ["n.md"] "a\n\nb").1.metaFile
        = some ([] ++ [MetaRec.mk ["v", "n.md"] "a\n\nb"]) ∧
    (_create exV exStEmptyPair ["n.md"] "a\n\nb").1.indexFile = some (["u"] ++ ["a\n\nb"]) ∧
    (_create exV exStEmptyPair ["n.md"] "a\n\nb").2
        = .ok ("Created " ++ relString ["n.md"] ++ ".") :=
  index_add_appends_single_record exV exStEmptyPair ["n.md"] "a\n\nb" ["v", "n.md"] [] [] ["u"]
    rfl (by decide) rfl rfl rfl (by decide)

/-- C5 counterexample: `ask` on a vault with zero chunks does not fail
with an explicit EmptyIndex rejection — on a fresh empty vault it fails
with the incidental shape error of the empty embedding batch during the
bootstrap rebuild. -/
theorem ask_empty_vault_fails_without_emptyIndex :
    (_ask exV exStFresh "q").2 = .error .shapeError ∧
    Err.shapeError ≠ Err.emptyIndex :=
  ⟨rfl, by decide⟩

/-- C5 witness: the amended claim evaluated on the fresh empty vault. -/
theorem ask_zero_chunks_always_fails_witness :
    failsWithoutEmptyIndex (_ask exV exStFresh "q" 5).2 = true :=
  ask_zero_chunks_always_fails exV exStFresh "q" 5 (by decide) rfl (Or.inl rfl)

/-- C6 counterexample: with a stray ambient index holding one vector,
`ask` on a one-record vault succeeds while the positions used to
assemble the context include `-1` — a position outside
`[0, len(MetadataStore))` that Python indexing wraps to the last
record. -/
theorem ask_succeeds_using_position_minus_one :
    (_ask exV exStHello "q").2.isOk = true ∧
    askUsedPositions exV exStHello "q" = some [0, -1, -1, -1, -1] ∧
    (-1 : Int) ∈ [(0 : Int), -1, -1, -1, -1] ∧
    ¬ (0 ≤ (-1 : Int)) :=
  ⟨by decide, by decide, by decide, by decide⟩

/-- C6 witness: the amended bounds instantiated at the position `-1`
used by the successful `ask` on `exStHello`. -/
theorem ask_success_positions_python_valid_witness :
    -(([MetaRec.mk ["v", "a.md"] "hello"].length : Int)) ≤ -1 ∧
    (-1 : Int) < ([MetaRec.mk ["v", "a.md"] "hello"].length : Int) :=
  ask_success_positions_python_valid exV exStHello "q" 5 exAnswer [0, -1, -1, -1, -1]
    [MetaRec.mk ["v", "a.md"] "hello"] rfl (by decide) rfl (-1) (by decide)

/-- C7 witness: the second `create("x.md", "hi")` on a vault already
holding `x.md` returns the "already exists" outcome with the state
unchanged. -/
theorem create_existing_returns_already_exists_witness :
    _create exV exStExisting ["x.md"] "hi"
      = (exStExisting, .ok ("File " ++ relString ["x.md"] ++ " already exists.")) :=
  create_existing_returns_already_exists exV exStExisting ["x.md"] "hi" ["v", "x.md"]
    rfl (by decide)

/-- C8 counterexample: a second run of the backlink pass is not
byte-identical to the first.  In `exStBacklinks`, the old Backlinks tail
of `B.md` contains the text `\^\]` that the pass's pattern matches and
a note named `\^\].md` exists; the first run strips the tail (removing
the match) and appends a Backlinks section to `\^\].md`, and the second
run, whose reverse-reference map is now empty, strips that section away
again. -/
theorem backlinks_pass_second_run_changes_file :
    lookupFile (backlinksPass exV (backlinksPass exV exStBacklinks)).files ["v", "\\^\\].md"]
        = some "w" ∧
    lookupFile (backlinksPass exV exStBacklinks).files ["v", "\\^\\].md"]
        = some "w\n## Backlinks\n\n- [[B]]\n" ∧
    some ("w" : String) ≠ some "w\n## Backlinks\n\n- [[B]]\n" :=
  ⟨by decide, by decide, by decide⟩

/-- C8 witness: on an ordinary two-note vault (wiki link, old Backlinks
tail, no backslash text) the pass is idempotent. -/
theorem backlinks_pass_idempotent_on_plain_vaults_witness :
    backlinksPass exV (backlinksPass exV exStOrdinary) = backlinksPass exV exStOrdinary :=
  backlinks_pass_idempotent_on_plain_vaults exV exStOrdinary (by decide)

/-- C9 witness: `../x` escapes the vault root and every CRUD operation
rejects it without side effects. -/
theorem escaping_path_rejected_witness :
    _create exV exStExisting ["..", "x"] "boom" = (exStExisting, .error .pathEscape) ∧
    _read exV exStExisting ["..", "x"] = .error .pathEscape ∧
    _update exV exStExisting ["..", "x"] "boom" = (exStExisting, .error .pathEscape) ∧
    _delete exV exStExisting ["..", "x"] = (exStExisting, .error .pathEscape) :=
  escaping_path_rejected exV exStExisting ["..", "x"] "boom" (by decide)

/-- C10 counterexample: with no stray ambient index, `create` on a path
with missing intermediate directories creates the directories and writes
the file, but the call as a whole does not succeed — it raises
`TypeError` in the subsequent incremental indexing step. -/
theorem create_nested_path_errors_after_write :
    (_create exV exStFresh ["d", "e", "x.md"] "hi").2 = .error .typeError ∧
    lookupFile (_create exV exStFresh ["d", "e", "x.md"] "hi").1.files ["v", "d", "e", "x.md"]
      = some "hi" ∧
    ["v", "d"] ∈ (_create exV exStFresh ["d", "e", "x.md"] "hi").1.dirs ∧
    ["v", "d", "e"] ∈ (_create exV exStFresh ["d", "e", "x.md"] "hi").1.dirs :=
  ⟨by decide, by decide, by decide, by decide⟩

/-- C10 witness: the amended claim evaluated on the nested create — the
file is written and the first missing parent directory exists
afterwards. -/
theorem create_makes_parent_dirs_witness :
    lookupFile (_create exV exStFresh ["d", "e", "x.md"] "hi").1.files ["v", "d", "e", "x.md"]
      = some "hi" ∧
    ["v", "d"] ∈ (_create exV exStFresh ["d", "e", "x.md"] "hi").1.dirs :=
  ⟨(create_makes_parent_dirs exV exStFresh ["d", "e", "x.md"] "hi" ["v", "d", "e", "x.md"]
      rfl (by decide)).1,
   (create_makes_parent_dirs exV exStFresh ["d", "e", "x.md"] "hi" ["v", "d", "e", "x.md"]
      rfl (by decide)).2 ["v", "d"] (by decide)⟩

/-- C2 witness: a note-free vault with one attachment — the pass deletes
the attachment, and the attachment is referenced by no Note. -/
theorem orphan_prune_never_deletes_referenced_witness :
    lookupFile exStAttachments.files ["v", "img.png"] = some "PNG" ∧
    lookupFile (orphansPass exV exStAttachments).1.files ["v", "img.png"] = none ∧
    referencedB exV exStAttachments ["v", "img.png"] = false :=
  ⟨by decide, by decide,
    orphan_prune_never_deletes_referenced exV exStAttachments ["v", "img.png"] "PNG"
      (by decide) (by decide)⟩

end VaultOps
